import Mathlib

/-!
Verification of the eclair summary engine.

The Rust sources are shallowly embedded:

* bytes are natural numbers below 256, byte streams are `List Nat`;
* `i32` values are integers (every construction site keeps them inside
  `[-2^31, 2^31)`), `usize` arithmetic is written out modulo `2^64`;
* fallible functions return `Except`; a reachable `panic!`, `unwrap`,
  `expect` or failed `assert!` is modelled by the dedicated
  `Outcome.panicked` value;
* `f32`/`f64` values are carried as their big-endian bit patterns (no claim
  computes with floating point, values are only moved around);
* strings are modelled over the ASCII fragment of UTF-8 (all record names,
  mnemonics and units in the format are space-padded ASCII).
-/

set_option autoImplicit false

namespace Eclair

/-- The kinds of `std::io::Error` that the embedded functions can produce. -/
inductive IoErrKind where
  | notFound
  | unexpectedEof
deriving DecidableEq, Repr

/-- The crate error enum (`error.rs`, `thiserror`).  The variants and their
payloads follow `new_code/src/error.rs`; `InvalidFilePath` is taken from its
construction sites in `eclair/src/summary.rs` (the enum revision that contains
it is not part of the sources, only its uses are). `ReadError` wraps an
`std::io::Error` via `#[from]`, here reduced to its kind. -/
inductive EclairError where
  | NotEnoughBytes (expected found : Nat)
  | HeadTailMismatch (head tail : ℤ)
  | InvalidDataType (id : String)
  | InvalidC0nnLength (id : String)
  | RecordByteLengthMismatch (expected found : Nat)
  | InvalidStringBytes
  | ReadError (kind : IoErrKind)
  | InvalidRecordDataType (name expected found : String)
  | RecordEncounteredTwice (name : String)
  | UnexpectedRecordDataLength (name : String) (expected found : Nat)
  | MissingRecord (name : String)
  | InvalidMinistepValue (expected found : Nat)
  | InvalidFilePath (path : String)
deriving DecidableEq, Repr

/-- Result of running a Rust function that may return an error or panic. -/
inductive Outcome (α : Type) where
  | ok (val : α)
  | err (e : EclairError)
  | panicked
deriving DecidableEq, Repr

/-- `v as usize` for an `i32` value `v`: two's-complement reinterpretation
into 64-bit unsigned arithmetic. -/
def usizeOfI32 (v : ℤ) : Nat := (v % 2 ^ 64).toNat

/-- Wrapping `usize` subtraction (release-mode Rust semantics); both
arguments are `usize` values, i.e. below `2^64`. -/
def usizeSub (a b : Nat) : Nat := (a + 2 ^ 64 - b) % 2 ^ 64

/-- Wrapping `usize` addition. -/
def usizeAdd (a b : Nat) : Nat := (a + b) % 2 ^ 64

/-- Wrapping `usize` multiplication. -/
def usizeMul (a b : Nat) : Nat := (a * b) % 2 ^ 64

/-! ### `binary_parsing.rs` -/

/-- `read_i32` (`binary_parsing.rs`): interpret a 4-byte slice as a
big-endian `i32`.  Every caller passes exactly four bytes (`try_into()` in
the source panics otherwise; that arm is unreachable here). -/
def readI32 (b : List Nat) : ℤ :=
  match b with
  | [b0, b1, b2, b3] =>
    let u : Nat := b0 * 2 ^ 24 + b1 * 2 ^ 16 + b2 * 2 ^ 8 + b3
    if u < 2 ^ 31 then (u : ℤ) else (u : ℤ) - 2 ^ 32
  | _ => 0

/-- `take` (`binary_parsing.rs`): fallible `split_at`. -/
def take (size : Nat) (input : List Nat) : Except EclairError (List Nat × List Nat) :=
  if input.length < size then .error (.NotEnoughBytes size input.length)
  else .ok (input.take size, input.drop size)

/-- `take_i32` (`binary_parsing.rs`). -/
def takeI32 (input : List Nat) : Except EclairError (ℤ × List Nat) := do
  let (left, right) ← take 4 input
  pure (readI32 left, right)

/-- `take_block` (`binary_parsing.rs`): head marker, payload of that many
bytes, tail marker; the two markers must agree. -/
def takeBlock (input : List Nat) : Except EclairError (List Nat × List Nat) := do
  let (head, input) ← takeI32 input
  let (data, input) ← take (usizeOfI32 head) input
  let (tail, input) ← takeI32 input
  if head = tail then pure (data, input)
  else .error (.HeadTailMismatch head tail)

/-- `take_block_exact` (`binary_parsing.rs`). -/
def takeBlockExact (size : Nat) (input : List Nat) :
    Except EclairError (List Nat × List Nat) := do
  let data ← takeBlock input
  if data.1.length ≠ size then
    .error (.RecordByteLengthMismatch size data.1.length)
  else pure data

/-- Big-endian encoding of an `i32` into four bytes (used to state the framing
round-trip; inverse of `readI32` on the `i32` range). -/
def encI32 (v : ℤ) : List Nat :=
  let u : Nat := (v % 2 ^ 32).toNat
  [u / 2 ^ 24 % 256, u / 2 ^ 16 % 256, u / 2 ^ 8 % 256, u % 256]

theorem encI32_length (v : ℤ) : (encI32 v).length = 4 := rfl

theorem readI32_encI32 (v : ℤ) (h0 : 0 ≤ v) (h1 : v < 2 ^ 31) :
    readI32 (encI32 v) = v := by
  lift v to ℕ using h0 with m
  have hm : m < 2 ^ 31 := by exact_mod_cast h1
  have h32 : (2 : ℤ) ^ 32 = 4294967296 := by norm_num
  have hmod : (((m : ℤ)) % 2 ^ 32).toNat = m := by
    rw [h32]; omega
  have hrec : m / 2 ^ 24 % 256 * 2 ^ 24 + m / 2 ^ 16 % 256 * 2 ^ 16 +
      m / 2 ^ 8 % 256 * 2 ^ 8 + m % 256 = m := by omega
  simp only [readI32, encI32, hmod]
  rw [hrec, if_pos hm]

theorem usizeOfI32_small (v : ℤ) (h0 : 0 ≤ v) (h1 : v < 2 ^ 31) :
    usizeOfI32 v = v.toNat := by
  have h64 : (2 : ℤ) ^ 64 = 18446744073709551616 := by norm_num
  have h31 : (2 : ℤ) ^ 31 = 2147483648 := by norm_num
  unfold usizeOfI32
  rw [h64]
  omega

theorem take_append (n : Nat) (xs ys : List Nat) (h : xs.length = n) :
    take n (xs ++ ys) = .ok (xs, ys) := by
  subst h
  have hlen : ¬ (xs ++ ys).length < xs.length := by
    simp only [List.length_append]; omega
  simp [take, hlen, List.take_left, List.drop_left]

theorem takeI32_append (xs ys : List Nat) (h : xs.length = 4) :
    takeI32 (xs ++ ys) = .ok (readI32 xs, ys) := by
  simp only [takeI32, take_append 4 xs ys h]
  rfl

/-- C6: for every non-negative i32 length `L` and payload of exactly `L`
bytes, decoding the framed block `[L][payload][L]` returns the payload and
consumes exactly `L + 8` bytes (whatever follows the frame remains); a tail
marker that differs from the head marker fails with
`HeadTailMismatch{head, tail}`. -/
theorem c6_take_block_framing (L : ℤ) (payload rest t : List Nat)
    (hL0 : 0 ≤ L) (hL : L < 2 ^ 31) (hlen : payload.length = L.toNat) :
    (encI32 L ++ payload ++ encI32 L ++ rest).length = (L.toNat + 8) + rest.length
    ∧ takeBlock (encI32 L ++ payload ++ encI32 L ++ rest) = .ok (payload, rest)
    ∧ (t.length = 4 → readI32 t ≠ L →
        takeBlock (encI32 L ++ payload ++ t ++ rest) =
          .error (.HeadTailMismatch L (readI32 t))) := by
  have henc := encI32_length L
  have hread := readI32_encI32 L hL0 hL
  have husize := usizeOfI32_small L hL0 hL
  refine ⟨?_, ?_, ?_⟩
  · simp only [List.length_append, encI32_length]
    omega
  · rw [List.append_assoc, List.append_assoc, takeBlock]
    rw [takeI32_append _ _ henc, hread]
    simp only [bind, Except.bind]
    rw [husize, take_append _ _ _ hlen]
    simp only [bind, Except.bind]
    rw [takeI32_append _ _ henc, hread]
    simp [pure, Except.pure]
  · intro ht hne
    rw [List.append_assoc, List.append_assoc, takeBlock]
    rw [takeI32_append _ _ henc, hread]
    simp only [bind, Except.bind]
    rw [husize, take_append _ _ _ hlen]
    simp only [bind, Except.bind]
    rw [takeI32_append _ _ ht]
    simp [Ne.symm hne]

/-! ### Strings over the ASCII fragment -/

/-- Byte values that `str::trim` removes at the ends (ASCII whitespace). -/
def isWsByte (b : Nat) : Bool := b = 32 || b = 9 || b = 10 || b = 11 || b = 12 || b = 13

/-- Trim leading and trailing whitespace bytes. -/
def trimAscii (bs : List Nat) : List Nat :=
  ((bs.dropWhile isWsByte).reverse.dropWhile isWsByte).reverse

/-- View a list of ASCII bytes as a `String`. -/
def asciiOfBytes (bs : List Nat) : String := ⟨bs.map Char.ofNat⟩

/-- `take_str` (`binary_parsing.rs`): take `size` bytes, check that they form
a string and trim it.  The embedding validates the ASCII fragment of UTF-8
only; every string in the format is space-padded ASCII. -/
def takeStr (size : Nat) (input : List Nat) :
    Except EclairError (String × List Nat) := do
  let (left, right) ← take size input
  if left.all (· < 128) then pure (asciiOfBytes (trimAscii left), right)
  else .error .InvalidStringBytes

/-! ### `records.rs` -/

/-- An `f32` value, carried as its big-endian bit pattern. -/
structure Fp32 where
  bits : Nat
deriving DecidableEq, Repr

/-- An `f64` value, carried as its big-endian bit pattern. -/
structure Fp64 where
  bits : Nat
deriving DecidableEq, Repr

/-- `RecordData` (`records.rs`). -/
inductive RecordData where
  | Int (vals : List ℤ)
  | Bool (vals : List ℤ)
  | Chars (vals : List String)
  | F32 (vals : List Fp32)
  | F64 (vals : List Fp64)
  | Message
deriving DecidableEq, Repr

/-- `RecordData::kind_string`, via the `Display` of `RecordDataKind`. -/
def RecordData.kindString : RecordData → String
  | .Int _ => "INTE"
  | .Bool _ => "LOGI"
  | .Chars _ => "CHAR"
  | .F32 _ => "REAL"
  | .F64 _ => "DOUB"
  | .Message => "MESS"

/-- `Record` (`records.rs`). -/
structure Record where
  name : String
  data : RecordData
deriving DecidableEq, Repr

/-- Recompose big-endian bytes (for the `f32`/`f64` bit patterns). -/
def bytesToNat (bs : List Nat) : Nat := bs.foldl (fun a b => 256 * a + b) 0

/-- `chunks_exact(n)`: the full chunks of `n` bytes, remainder dropped. -/
def chunksExact (n : Nat) (l : List Nat) : List (List Nat) :=
  if _h : n = 0 ∨ l.length < n then []
  else l.take n :: chunksExact n (l.drop n)
termination_by l.length
decreasing_by
  push_neg at _h
  simp only [List.length_drop]
  omega

/-- One `CHAR`/`C0nn` element: UTF-8 decode with the source's `unwrap_or`
fallback text, then trim. -/
def charsChunk (chunk : List Nat) : String :=
  if chunk.all (· < 128) then asciiOfBytes (trimAscii chunk)
  else "Utf8 error creating string record"

/-- `RecordData::push` (`records.rs`): split the bytes into `element_size`
chunks and decode each into the variant's element type.  `chunks_exact(0)`
panics in Rust, as does pushing into a `Message` (`unimplemented!`). -/
def RecordData.push (d : RecordData) (input : List Nat) (elementSize : Nat) :
    Outcome RecordData :=
  if elementSize = 0 then .panicked
  else
    let chunks := chunksExact elementSize input
    match d with
    | .Int v => .ok (.Int (v ++ chunks.map readI32))
    | .Bool v => .ok (.Bool (v ++ chunks.map readI32))
    | .F32 v => .ok (.F32 (v ++ chunks.map (fun c => ⟨bytesToNat c⟩)))
    | .F64 v => .ok (.F64 (v ++ chunks.map (fun c => ⟨bytesToNat c⟩)))
    | .Chars v => .ok (.Chars (v ++ chunks.map charsChunk))
    | .Message => .panicked

/-- `Header` (`records.rs`). -/
structure Header where
  name : String
  elementSize : Nat
  blockLength : Nat
  nElements : Nat
deriving DecidableEq, Repr

/-- `Header::len_bytes` (`records.rs`): the number of body bytes implied by
the header, `n_elements * element_size + (1 + (n_elements - 1) /
block_length) * 4 * 2` in wrapping `usize` arithmetic.  For
`n_elements = 0` the subtraction underflows. -/
def Header.lenBytes (h : Header) : Nat :=
  let nBlocks := usizeAdd 1 (usizeSub h.nElements 1 / h.blockLength)
  usizeAdd (usizeMul h.nElements h.elementSize) (usizeMul (usizeMul nBlocks 4) 2)

/-- Digit parsing for the `C0nn` length (`"nn".parse::<usize>()`). -/
def digitsToNat (cs : List Char) : Nat := cs.foldl (fun a c => 10 * a + (c.toNat - 48)) 0

/-- `Header::with_record_data` (`records.rs`): dispatch on the type
identifier, yielding element size, sub-block length and the empty data
variant.  An empty digit suffix after `C0` makes `parse().unwrap()` panic. -/
def withRecordData (name typeId : String) (nElements : Nat) :
    Outcome (Header × RecordData) :=
  match typeId.toList with
  | ['I', 'N', 'T', 'E'] => .ok (⟨name, 4, 1000, nElements⟩, .Int [])
  | ['R', 'E', 'A', 'L'] => .ok (⟨name, 4, 1000, nElements⟩, .F32 [])
  | ['D', 'O', 'U', 'B'] => .ok (⟨name, 8, 1000, nElements⟩, .F64 [])
  | ['L', 'O', 'G', 'I'] => .ok (⟨name, 4, 1000, nElements⟩, .Bool [])
  | ['M', 'E', 'S', 'S'] => .ok (⟨name, 0, 1000, nElements⟩, .Message)
  | ['C', 'H', 'A', 'R'] => .ok (⟨name, 8, 105, nElements⟩, .Chars [])
  | 'C' :: '0' :: rest =>
    if rest.all Char.isDigit then
      if rest.isEmpty then .panicked
      else .ok (⟨name, digitsToNat rest, 105, nElements⟩, .Chars [])
    else .err (.InvalidC0nnLength (String.mk rest))
  | _ => .err (.InvalidDataType typeId)

/-- `extract_header_info` (`records.rs`): decode the 24-byte header block
(16-byte payload framed by markers: 8-byte name, i32 element count, 4-byte
type identifier); the trailing `assert!` panics on leftover bytes. -/
def extractHeaderInfo (input : List Nat) : Outcome (Header × RecordData) :=
  match takeBlockExact 16 input with
  | .error e => .err e
  | .ok (header16, _) =>
    match takeStr 8 header16 with
    | .error e => .err e
    | .ok (name, header1) =>
      match takeI32 header1 with
      | .error e => .err e
      | .ok (nElements, header2) =>
        match takeStr 4 header2 with
        | .error e => .err e
        | .ok (typeId, header3) =>
          if header3 ≠ [] then .panicked
          else withRecordData name typeId (usizeOfI32 nElements)

/-- The loop of `RecordData::populate` (`records.rs`): consume sub-blocks of
at most `block_length` elements until `n_remaining` elements are read; the
trailing `assert!` panics unless the input is consumed exactly.  A zero
`to_read` cannot occur for headers built by `with_record_data`
(`block_length` is 105 or 1000); the Rust loop would not terminate there,
modelled as a panic. -/
def populateGo (elementSize blockLength : Nat) (d : RecordData)
    (nRemaining : Nat) (rest : List Nat) : Outcome RecordData :=
  if nRemaining = 0 then
    if rest ≠ [] then .panicked else .ok d
  else
    let toRead := min blockLength nRemaining
    if _htr : toRead = 0 then .panicked
    else
      match takeBlockExact (toRead * elementSize) rest with
      | .error e => .err e
      | .ok (blockBytes, rest') =>
        match d.push blockBytes elementSize with
        | .ok d' => populateGo elementSize blockLength d' (nRemaining - toRead) rest'
        | .err e => .err e
        | .panicked => .panicked
termination_by nRemaining
decreasing_by omega

/-- `RecordData::populate` (`records.rs`). -/
def RecordData.populate (d : RecordData) (h : Header) (input : List Nat) :
    Outcome RecordData :=
  populateGo h.elementSize h.blockLength d h.nElements input

/-- `read_record` for `std::io::Read` (`records.rs`): read the 24-byte
header (empty input is a clean EOF; a short header fails `read_exact`),
decode it, read `len_bytes()` body bytes and populate the record. -/
def readRecord (input : List Nat) : Outcome (Nat × Option Record) :=
  if input = [] then .ok (0, none)
  else if input.length < 24 then .err (.ReadError .unexpectedEof)
  else
    match extractHeaderInfo (input.take 24) with
    | .err e => .err e
    | .panicked => .panicked
    | .ok (header, data0) =>
      let body := input.drop 24
      if body.length < header.lenBytes then .err (.ReadError .unexpectedEof)
      else
        match data0.populate header (body.take header.lenBytes) with
        | .err e => .err e
        | .panicked => .panicked
        | .ok data => .ok (24 + header.lenBytes, some ⟨header.name, data⟩)

set_option maxHeartbeats 1000000 in
theorem withRecordData_facts (name typeId : String) (k : Nat)
    (h : Header) (d : RecordData)
    (hok : withRecordData name typeId k = .ok (h, d)) :
    (h.blockLength = 1000 ∨ h.blockLength = 105) ∧ h.nElements = k := by
  unfold withRecordData at hok
  split at hok <;> try (cases hok) <;> try simp
  split at hok
  · split at hok
    · cases hok
    · cases hok; simp
  · cases hok

theorem extractHeaderInfo_facts (input : List Nat) (h : Header) (d : RecordData)
    (hok : extractHeaderInfo input = .ok (h, d)) :
    h.blockLength = 1000 ∨ h.blockLength = 105 := by
  unfold extractHeaderInfo at hok
  split at hok
  · cases hok
  · split at hok
    · cases hok
    · split at hok
      · cases hok
      · split at hok
        · cases hok
        · split at hok
          · cases hok
          · exact (withRecordData_facts _ _ _ _ _ hok).1

theorem lenBytes_of_zero_elements (h : Header) (h0 : h.nElements = 0)
    (hbl : h.blockLength = 1000 ∨ h.blockLength = 105) :
    2 ^ 50 ≤ h.lenBytes := by
  rcases hbl with hbl | hbl <;>
    simp [Header.lenBytes, usizeAdd, usizeSub, usizeMul, h0, hbl]

/-- C10: a record header declaring `n_elements = 0` (for example a `MESS`
record with no elements) makes the `n_blocks = 1 + (n_elements - 1) /
block_length` computation underflow in `usize` arithmetic, so `len_bytes`
demands at least `2^50` body bytes and `read_record` fails with an
end-of-stream read error instead of returning an empty record, for every
input of feasible size. -/
theorem c10_zero_elements_no_record (input : List Nat) (h : Header) (d : RecordData)
    (hparse : extractHeaderInfo (input.take 24) = .ok (h, d))
    (h24 : 24 ≤ input.length)
    (h0 : h.nElements = 0)
    (hreal : input.length < 2 ^ 50) :
    2 ^ 50 ≤ h.lenBytes ∧ readRecord input = .err (.ReadError .unexpectedEof) := by
  have hbl := extractHeaderInfo_facts _ _ _ hparse
  have hlb := lenBytes_of_zero_elements h h0 hbl
  refine ⟨hlb, ?_⟩
  have hne : ¬ input = [] := by
    intro he; rw [he] at h24; simp at h24
  have hn24 : ¬ input.length < 24 := by omega
  have hbody : (List.drop 24 input).length < h.lenBytes := by
    simp only [List.length_drop]
    omega
  rw [readRecord, if_neg hne, if_neg hn24, hparse]
  dsimp only
  rw [if_pos hbody]

/-- The 24 bytes of a well-formed `MESS` record header named `FOO` with
zero elements: marker 16, name, element count 0, type, marker 16. -/
def messHeaderBytes : List Nat :=
  encI32 16 ++ [70, 79, 79, 32, 32, 32, 32, 32] ++ encI32 0 ++ [77, 69, 83, 83] ++ encI32 16

/-- Witness for C10 on the concrete zero-element `MESS` header. -/
theorem c10_zero_elements_no_record_witness :
    2 ^ 50 ≤ (Header.mk "FOO" 0 1000 0).lenBytes
    ∧ readRecord messHeaderBytes = .err (.ReadError .unexpectedEof) :=
  c10_zero_elements_no_record messHeaderBytes (Header.mk "FOO" 0 1000 0) .Message
    (by decide) (by decide) rfl (by decide)

/-! ### `summary.rs`: item identities and the catalog -/

/-- A monad structure on `Outcome` (error and panic propagation). -/
instance : Monad Outcome where
  pure := .ok
  bind m f :=
    match m with
    | .ok a => f a
    | .err e => .err e
    | .panicked => .panicked

/-- Lift an `Except` result (`?` on a `Result` in Rust). -/
def Outcome.ofExcept {α : Type} : Except EclairError α → Outcome α
  | .ok a => .ok a
  | .error e => .err e

def UNKNOWN_WG_NAME : String := ":+:+:+:+"

def TIMING_KEYWORDS : List String := ["TIME", "YEARS", "DAY", "MONTH", "YEAR"]

def PERFORMANCE_KEYWORDS : List String :=
  ["ELAPSED", "MLINEARS", "MSUMLINS", "MSUMNEWT", "NEWTON", "NLINEARS",
   "TCPU", "TCPUDAY", "TCPUTS", "TIMESTEP", "MEMGB", "MAXMEMGB", "NAIMFRAC"]

/-- `ItemQualifier` (`summary.rs`). -/
inductive ItemQualifier where
  | Time
  | Performance
  | Field
  | Aquifer (index : ℤ)
  | Region (wg_name : Option String) (index : ℤ)
  | CrossRegionFlow (from_ to_ : ℤ)
  | Well (wg_name : String)
  | Completion (wg_name : String) (index : ℤ)
  | Group (wg_name : String)
  | Block (index : ℤ)
  | Unrecognized (wg_name : String) (index : ℤ)
deriving DecidableEq, Repr

/-- `ItemQualifier::is_recognized` (`summary.rs`). -/
def ItemQualifier.is_recognized : ItemQualifier → Bool
  | .Unrecognized _ _ => false
  | _ => true

/-- `ItemId` (`summary.rs`). -/
structure ItemId where
  name : String
  qualifier : ItemQualifier
deriving DecidableEq, Repr

/-- The `[b'R', b'N', b'L', b'F', ..] | [b'R', _, b'F', ..]` slice patterns
of `ItemId::new` (names are ASCII, so bytes coincide with characters). -/
def isCrossRegionName : List Char → Bool
  | 'R' :: 'N' :: 'L' :: 'F' :: _ => true
  | 'R' :: _ :: 'F' :: _ => true
  | _ => false

/-- `ItemId::new` (`summary.rs`): classify a mnemonic.  A source `match` arm
whose guard fails falls through to the later arms, rendered here as a chain
of conditionals in the source's arm order; `index / 32768` is Rust's
truncating `i32` division (`Int.tdiv`). -/
def ItemId.new (name wg_name : String) (index : ℤ) : ItemId :=
  let wgValid := wg_name != "" && wg_name != UNKNOWN_WG_NAME
  let numValid := decide (0 < index)
  let cs := name.toList
  let qualifier : ItemQualifier :=
    if TIMING_KEYWORDS.contains name then .Time
    else if PERFORMANCE_KEYWORDS.contains name then .Performance
    else if cs.head? == some 'F' then .Field
    else if cs.head? == some 'A' && numValid then .Aquifer index
    else if isCrossRegionName cs && numValid then
      let region2 := Int.tdiv index 32768 - 10
      let region1 := index - 32768 * (region2 + 10)
      .CrossRegionFlow region1 region2
    else if cs.head? == some 'R' && numValid then
      .Region (if wgValid then some wg_name else none) index
    else if cs.head? == some 'W' && wgValid then .Well wg_name
    else if cs.head? == some 'C' && (wgValid && numValid) then .Completion wg_name index
    else if cs.head? == some 'G' && wgValid then .Group wg_name
    else if cs.head? == some 'B' && numValid then .Block index
    else .Unrecognized wg_name index
  ⟨name, qualifier⟩

/-- `SummaryItem` (`summary.rs`). -/
structure SummaryItem where
  unit : String
  values : List Fp32
deriving DecidableEq, Repr

/-- `Summary` (`summary.rs`).  The `HashMap<ItemId, usize>` is embedded as
an association list whose keys stay distinct: insertion replaces the value
of an existing key, as `HashMap::insert` does. -/
structure Summary where
  dims : List ℤ
  timestamps : List ℤ
  item_ids : List (ItemId × Nat)
  items : List SummaryItem
  time_index : Nat
  start_timestamp : ℤ
deriving DecidableEq, Repr

/-- `HashMap::insert`: replace the value of an existing key, else add. -/
def hmInsert (m : List (ItemId × Nat)) (k : ItemId) (v : Nat) : List (ItemId × Nat) :=
  match m with
  | [] => [(k, v)]
  | (k1, v1) :: rest => if k1 = k then (k1, v) :: rest else (k1, v1) :: hmInsert rest k v

/-- `HashMap::get`. -/
def hmGet (m : List (ItemId × Nat)) (k : ItemId) : Option Nat :=
  match m with
  | [] => none
  | (k1, v1) :: rest => if k1 = k then some v1 else hmGet rest k

/-- `Summary::n_items` (`summary.rs`). -/
def Summary.nItems (s : Summary) : Nat := s.items.length

/-- `Summary::n_steps` (`summary.rs`). -/
def Summary.nSteps (s : Summary) : Nat :=
  match s.items.head? with
  | some it => it.values.length
  | none => 0

/-- `Summary::append` (`summary.rs`): push the timestamp derived from the
`TIME` slot, then push each parameter into its item (`iter_mut().zip` leaves
items beyond the parameter count untouched).  `params[self.time_index]`
panics when out of bounds (`none` here); `secsOf` abstracts the
`(new_time * 86400.0) as i64` floating-point conversion. -/
def Summary.append (secsOf : Fp32 -> ℤ) (s : Summary) (params : List Fp32) :
    Option Summary :=
  match params.get? s.time_index with
  | none => none
  | some newTime =>
    some { s with
      timestamps := s.timestamps ++ [s.start_timestamp + secsOf newTime]
      items :=
        (List.zipWith (fun it p => { it with values := it.values ++ [p] }) s.items params)
          ++ s.items.drop params.length }

/-- `SmspecRecords` (`summary.rs`): the six records a `Summary` is built
from, keyed as in `SmspecRecords::default` (a `NAMES` record is stored
under the `WGNAMES` key). -/
structure SmspecRecords where
  dimens : Option RecordData
  startdat : Option RecordData
  keywords : Option RecordData
  wgnames : Option RecordData
  nums : Option RecordData
  units : Option RecordData
deriving DecidableEq, Repr

/-- The length check of the `validate!` macro: the admissible lengths are
tried in order; a found length below the candidate reports that candidate,
a length beyond every candidate reports the last one. -/
def checkLens (name : String) (found : Nat) : List Nat → Nat → Except EclairError Unit
  | [], lastLen => .error (.UnexpectedRecordDataLength name lastLen found)
  | l :: ls, _ =>
    if found < l then .error (.UnexpectedRecordDataLength name l found)
    else if found = l then .ok ()
    else checkLens name found ls l

/-- `extract_and_validate!`/`validate!` for an `Int` record. -/
def extractInt (name : String) (lens : List Nat) (d : Option RecordData) :
    Except EclairError (List ℤ) :=
  match d with
  | none => .error (.MissingRecord name)
  | some (.Int vs) =>
    match checkLens name vs.length lens 0 with
    | .error e => .error e
    | .ok _ => .ok vs
  | some other => .error (.InvalidRecordDataType name "INTE" other.kindString)

/-- `extract_and_validate!`/`validate!` for a `Chars` record. -/
def extractChars (name : String) (lens : List Nat) (d : Option RecordData) :
    Except EclairError (List String) :=
  match d with
  | none => .error (.MissingRecord name)
  | some (.Chars vs) =>
    match checkLens name vs.length lens 0 with
    | .error e => .error e
    | .ok _ => .ok vs
  | some other => .error (.InvalidRecordDataType name "CHAR" other.kindString)

/-- `itertools::multizip` over four vectors. -/
def zip4 {α β γ δ : Type} : List α → List β → List γ → List δ → List (α × β × γ × δ)
  | a :: ta, b :: tb, c :: tc, d :: td => (a, b, c, d) :: zip4 ta tb tc td
  | _, _, _, _ => []

/-- The item-construction loop of `TryFrom<SmspecRecords>`: insert each
derived `ItemId` with the running slot index and push an empty item. -/
def buildItems : List (String × String × ℤ × String) →
    List (ItemId × Nat) × List SummaryItem → List (ItemId × Nat) × List SummaryItem
  | [], st => st
  | (name, wg, num, unit) :: rest, (ids, items) =>
    buildItems rest
      (hmInsert ids (ItemId.new name wg num) items.length, items ++ [⟨unit, []⟩])

/-- `TryFrom<SmspecRecords> for Summary` (`summary.rs`): validate the six
records, derive the item identities and resolve the `TIME` slot.  The
`dateToTs` parameter abstracts the chrono date-to-unix-seconds conversion
applied to `STARTDAT` (`NaiveDate::from_ymd` with `and_hms`/`and_hms_milli`
and `timestamp()`); the `TIME` lookup is `unwrap`ped in the source, so a
missing `TIME` item is a panic. -/
def summaryTryFrom (dateToTs : List ℤ → ℤ) (r : SmspecRecords) : Outcome Summary := do
  let dimens ← Outcome.ofExcept (extractInt "DIMENS" [6] r.dimens)
  let nlist := usizeOfI32 (dimens.getD 0 0)
  let startDat ← Outcome.ofExcept (extractInt "STARTDAT" [3, 6] r.startdat)
  let keywords ← Outcome.ofExcept (extractChars "KEYWORDS" [nlist] r.keywords)
  let wgNames ← Outcome.ofExcept (extractChars "WGNAMES" [nlist] r.wgnames)
  let nums ← Outcome.ofExcept (extractInt "NUMS" [nlist] r.nums)
  let units ← Outcome.ofExcept (extractChars "UNITS" [nlist] r.units)
  let dims := (dimens.drop 1).take 3
  let ts := dateToTs startDat
  let st := buildItems (zip4 keywords wgNames nums units) ([], [])
  match hmGet st.1 ⟨"TIME", .Time⟩ with
  | none => .panicked
  | some timeIndex => .ok ⟨dims, [], st.1, st.2, timeIndex, ts⟩

/-! ### Facts about the embedded hash map and the construction loop -/

theorem hmInsert_mem {m : List (ItemId × Nat)} {k : ItemId} {v : Nat}
    {kv : ItemId × Nat} (h : kv ∈ hmInsert m k v) : kv ∈ m ∨ kv.2 = v := by
  induction m with
  | nil =>
    simp [hmInsert] at h
    simp [h]
  | cons hd tl ih =>
    obtain ⟨k1, v1⟩ := hd
    rw [hmInsert] at h
    by_cases hk : k1 = k
    · rw [if_pos hk] at h
      rcases List.mem_cons.mp h with h | h
      · right; rw [h]
      · left; exact List.mem_cons_of_mem _ h
    · rw [if_neg hk] at h
      rcases List.mem_cons.mp h with h | h
      · left; exact h ▸ List.mem_cons_self _ _
      · rcases ih h with h | h
        · left; exact List.mem_cons_of_mem _ h
        · right; exact h

theorem hmInsert_keys {m : List (ItemId × Nat)} {k : ItemId} {v : Nat} (k2 : ItemId) :
    k2 ∈ (hmInsert m k v).map Prod.fst ↔ k2 ∈ m.map Prod.fst ∨ k2 = k := by
  induction m with
  | nil => simp [hmInsert]
  | cons hd tl ih =>
    obtain ⟨k1, v1⟩ := hd
    rw [hmInsert]
    by_cases hk : k1 = k
    · subst hk
      rw [if_pos rfl]
      simp only [List.map_cons, List.mem_cons]
      constructor
      · rintro (h | h)
        · exact Or.inl (Or.inl h)
        · exact Or.inl (Or.inr h)
      · rintro ((h | h) | h)
        · exact Or.inl h
        · exact Or.inr h
        · exact Or.inl h
    · rw [if_neg hk]
      simp only [List.map_cons, List.mem_cons, ih]
      tauto

theorem hmInsert_length_le (m : List (ItemId × Nat)) (k : ItemId) (v : Nat) :
    (hmInsert m k v).length ≤ m.length + 1 := by
  induction m with
  | nil => simp [hmInsert]
  | cons hd tl ih =>
    obtain ⟨k1, v1⟩ := hd
    rw [hmInsert]
    by_cases hk : k1 = k
    · rw [if_pos hk]; simp
    · rw [if_neg hk]
      simp only [List.length_cons]
      omega

theorem hmInsert_length_new {m : List (ItemId × Nat)} {k : ItemId} (v : Nat)
    (h : k ∉ m.map Prod.fst) : (hmInsert m k v).length = m.length + 1 := by
  induction m with
  | nil => simp [hmInsert]
  | cons hd tl ih =>
    obtain ⟨k1, v1⟩ := hd
    simp only [List.map_cons, List.mem_cons, not_or] at h
    rw [hmInsert, if_neg (fun he => h.1 he.symm), List.length_cons,
      List.length_cons, ih h.2]

theorem hmGet_mem {m : List (ItemId × Nat)} {k : ItemId} {v : Nat}
    (h : hmGet m k = some v) : (k, v) ∈ m := by
  induction m with
  | nil => simp [hmGet] at h
  | cons hd tl ih =>
    obtain ⟨k1, v1⟩ := hd
    rw [hmGet] at h
    by_cases hk : k1 = k
    · rw [if_pos hk] at h
      subst hk
      injection h with h
      subst h
      exact List.mem_cons_self _ _
    · rw [if_neg hk] at h
      exact List.mem_cons_of_mem _ (ih h)

/-- The `ItemId` a metadata slot derives. -/
def idOf (e : String × String × ℤ × String) : ItemId := ItemId.new e.1 e.2.1 e.2.2.1

theorem buildItems_items_length (l : List (String × String × ℤ × String))
    (st : List (ItemId × Nat) × List SummaryItem) :
    (buildItems l st).2.length = st.2.length + l.length := by
  induction l generalizing st with
  | nil => simp [buildItems]
  | cons e rest ih =>
    obtain ⟨name, wg, num, unit⟩ := e
    obtain ⟨ids, items⟩ := st
    rw [buildItems, ih]
    simp only [List.length_append, List.length_cons, List.length_nil]
    omega

theorem buildItems_items_mem (l : List (String × String × ℤ × String))
    (st : List (ItemId × Nat) × List SummaryItem) (it : SummaryItem)
    (h : it ∈ (buildItems l st).2) : it ∈ st.2 ∨ it.values = [] := by
  induction l generalizing st with
  | nil => exact Or.inl h
  | cons e rest ih =>
    obtain ⟨name, wg, num, unit⟩ := e
    obtain ⟨ids, items⟩ := st
    rw [buildItems] at h
    rcases ih _ h with h | h
    · rcases List.mem_append.mp h with h | h
      · exact Or.inl h
      · right
        simp at h
        rw [h]
    · exact Or.inr h

theorem buildItems_ids_lt (l : List (String × String × ℤ × String))
    (st : List (ItemId × Nat) × List SummaryItem)
    (hst : ∀ kv ∈ st.1, kv.2 < st.2.length) :
    ∀ kv ∈ (buildItems l st).1, kv.2 < st.2.length + l.length := by
  induction l generalizing st with
  | nil =>
    intro kv h
    simpa using hst kv h
  | cons e rest ih =>
    obtain ⟨name, wg, num, unit⟩ := e
    obtain ⟨ids, items⟩ := st
    intro kv h
    dsimp only at hst ⊢
    rw [buildItems] at h
    have hstep : ∀ kv ∈ hmInsert ids (ItemId.new name wg num) items.length,
        kv.2 < (items ++ [(⟨unit, []⟩ : SummaryItem)]).length := by
      intro kv hkv
      rcases hmInsert_mem hkv with hkv | hkv
      · have := hst kv hkv
        simp only [List.length_append, List.length_cons, List.length_nil]
        omega
      · simp only [List.length_append, List.length_cons, List.length_nil]
        omega
    have := ih _ hstep kv h
    simp only [List.length_append, List.length_cons, List.length_nil] at this
    simp only [List.length_cons]
    omega

theorem buildItems_ids_length_le (l : List (String × String × ℤ × String))
    (st : List (ItemId × Nat) × List SummaryItem) :
    (buildItems l st).1.length ≤ st.1.length + l.length := by
  induction l generalizing st with
  | nil => simp [buildItems]
  | cons e rest ih =>
    obtain ⟨name, wg, num, unit⟩ := e
    obtain ⟨ids, items⟩ := st
    rw [buildItems]
    have h1 := ih (hmInsert ids (ItemId.new name wg num) items.length, items ++ [⟨unit, []⟩])
    have h2 := hmInsert_length_le ids (ItemId.new name wg num) items.length
    dsimp only at h1 ⊢
    simp only [List.length_cons]
    omega

theorem buildItems_keys (l : List (String × String × ℤ × String))
    (st : List (ItemId × Nat) × List SummaryItem) (k : ItemId) :
    k ∈ (buildItems l st).1.map Prod.fst ↔
      k ∈ st.1.map Prod.fst ∨ k ∈ l.map idOf := by
  induction l generalizing st with
  | nil => simp [buildItems]
  | cons e rest ih =>
    obtain ⟨name, wg, num, unit⟩ := e
    obtain ⟨ids, items⟩ := st
    rw [buildItems, ih]
    simp only [hmInsert_keys, List.map_cons, List.mem_cons, idOf]
    tauto

theorem buildItems_ids_length_nodup (l : List (String × String × ℤ × String))
    (st : List (ItemId × Nat) × List SummaryItem)
    (hnd : (l.map idOf).Nodup) (hdisj : ∀ e ∈ l, idOf e ∉ st.1.map Prod.fst) :
    (buildItems l st).1.length = st.1.length + l.length := by
  induction l generalizing st with
  | nil => simp [buildItems]
  | cons e rest ih =>
    obtain ⟨name, wg, num, unit⟩ := e
    obtain ⟨ids, items⟩ := st
    rw [buildItems]
    simp only [List.map_cons, List.nodup_cons] at hnd
    have hke : idOf (name, wg, num, unit) ∉ ids.map Prod.fst :=
      hdisj _ (List.mem_cons_self _ _)
    have hnew := hmInsert_length_new (m := ids) (k := ItemId.new name wg num)
      items.length (by simpa [idOf] using hke)
    have hdisj2 : ∀ e2 ∈ rest,
        idOf e2 ∉ (hmInsert ids (ItemId.new name wg num) items.length).map Prod.fst := by
      intro e2 he2
      rw [hmInsert_keys]
      push_neg
      refine ⟨hdisj e2 (List.mem_cons_of_mem _ he2), ?_⟩
      intro hcontra
      apply hnd.1
      rw [show ItemId.new name wg num = idOf (name, wg, num, unit) from rfl] at hcontra
      rw [← hcontra]
      exact List.mem_map_of_mem idOf he2
    rw [ih _ hnd.2 hdisj2, hnew]
    simp only [List.length_cons]
    omega

theorem zip4_length {α β γ δ : Type} (n : Nat) :
    ∀ (ta : List α) (tb : List β) (tc : List γ) (td : List δ),
    ta.length = n → tb.length = n → tc.length = n → td.length = n →
    (zip4 ta tb tc td).length = n := by
  induction n with
  | zero =>
    intro ta tb tc td ha hb hc hd
    rw [List.length_eq_zero] at ha hb hc hd
    subst ha; subst hb; subst hc; subst hd
    simp [zip4]
  | succ n ih =>
    intro ta tb tc td ha hb hc hd
    cases ta with
    | nil => simp at ha
    | cons a ta =>
      cases tb with
      | nil => simp at hb
      | cons b tb =>
        cases tc with
        | nil => simp at hc
        | cons c tc =>
          cases td with
          | nil => simp at hd
          | cons d td =>
            simp only [List.length_cons] at ha hb hc hd
            rw [zip4, List.length_cons,
              ih ta tb tc td (by omega) (by omega) (by omega) (by omega)]

theorem checkLens_ok_single {name : String} {found n last : Nat}
    (h : checkLens name found [n] last = .ok ()) : found = n := by
  rw [checkLens] at h
  by_cases h1 : found < n
  · rw [if_pos h1] at h; cases h
  · rw [if_neg h1] at h
    by_cases h2 : found = n
    · exact h2
    · rw [if_neg h2, checkLens] at h; cases h

theorem extractInt_ok {name : String} {lens : List Nat} {d : Option RecordData}
    {out : List ℤ} (h : extractInt name lens d = .ok out) :
    d = some (.Int out) ∧ checkLens name out.length lens 0 = .ok () := by
  match d with
  | none => cases h
  | some (.Int vs) =>
    rw [extractInt] at h
    rcases hc : checkLens name vs.length lens 0 with e | u
    · rw [hc] at h; cases h
    · rw [hc] at h
      cases h
      exact ⟨rfl, hc⟩
  | some (.Bool vs) => cases h
  | some (.Chars vs) => cases h
  | some (.F32 vs) => cases h
  | some (.F64 vs) => cases h
  | some .Message => cases h

theorem extractChars_ok {name : String} {lens : List Nat} {d : Option RecordData}
    {out : List String} (h : extractChars name lens d = .ok out) :
    d = some (.Chars out) ∧ checkLens name out.length lens 0 = .ok () := by
  match d with
  | none => cases h
  | some (.Chars vs) =>
    rw [extractChars] at h
    rcases hc : checkLens name vs.length lens 0 with e | u
    · rw [hc] at h; cases h
    · rw [hc] at h
      cases h
      exact ⟨rfl, hc⟩
  | some (.Int vs) => cases h
  | some (.Bool vs) => cases h
  | some (.F32 vs) => cases h
  | some (.F64 vs) => cases h
  | some .Message => cases h

theorem ofExcept_ok {α : Type} {e : Except EclairError α} {a : α} :
    Outcome.ofExcept e = .ok a ↔ e = .ok a := by
  cases e <;> simp [Outcome.ofExcept]

theorem summaryTryFrom_ok (dateToTs : List ℤ → ℤ) (r : SmspecRecords) (s : Summary)
    (hok : summaryTryFrom dateToTs r = .ok s) :
    ∃ dimens startDat keywords wgNames nums units timeIndex,
      extractInt "DIMENS" [6] r.dimens = .ok dimens
      ∧ extractInt "STARTDAT" [3, 6] r.startdat = .ok startDat
      ∧ extractChars "KEYWORDS" [usizeOfI32 (dimens.getD 0 0)] r.keywords = .ok keywords
      ∧ extractChars "WGNAMES" [usizeOfI32 (dimens.getD 0 0)] r.wgnames = .ok wgNames
      ∧ extractInt "NUMS" [usizeOfI32 (dimens.getD 0 0)] r.nums = .ok nums
      ∧ extractChars "UNITS" [usizeOfI32 (dimens.getD 0 0)] r.units = .ok units
      ∧ hmGet (buildItems (zip4 keywords wgNames nums units) ([], [])).1 ⟨"TIME", .Time⟩
          = some timeIndex
      ∧ s = ⟨(dimens.drop 1).take 3, [],
             (buildItems (zip4 keywords wgNames nums units) ([], [])).1,
             (buildItems (zip4 keywords wgNames nums units) ([], [])).2,
             timeIndex, dateToTs startDat⟩ := by
  unfold summaryTryFrom at hok
  simp only [bind] at hok
  split at hok <;> try (cases hok)
  next dimens hdim =>
  split at hok <;> try (cases hok)
  next startDat hsd =>
  split at hok <;> try (cases hok)
  next keywords hkw =>
  split at hok <;> try (cases hok)
  next wgNames hwg =>
  split at hok <;> try (cases hok)
  next nums hnm =>
  split at hok <;> try (cases hok)
  next units hun =>
  split at hok
  · cases hok
  next timeIndex htime =>
    cases hok
    exact ⟨dimens, startDat, keywords, wgNames, nums, units, timeIndex,
      ofExcept_ok.mp hdim, ofExcept_ok.mp hsd, ofExcept_ok.mp hkw, ofExcept_ok.mp hwg,
      ofExcept_ok.mp hnm, ofExcept_ok.mp hun, htime, rfl⟩

/-- C1 (amended): every metadata block accepted by `Summary::try_from`
yields `|items| = NLIST` with every `items[i].values` empty and `item_ids`
mapping `{name: TIME, qualifier: Time}` to `time_index`; `|item_ids|` is at
most `NLIST`, with equality when the `NLIST` derived `ItemId`s are pairwise
distinct — a block in which two distinct slots derive the same structural
`ItemId` collapses them onto one key, so `|item_ids| < NLIST` there. -/
theorem c1_catalog_construction (dateToTs : List ℤ → ℤ) (r : SmspecRecords)
    (s : Summary) (ds : List ℤ) (hdim : r.dimens = some (.Int ds))
    (hok : summaryTryFrom dateToTs r = .ok s) :
    s.items.length = usizeOfI32 (ds.getD 0 0)
    ∧ (∀ it ∈ s.items, it.values = [])
    ∧ hmGet s.item_ids ⟨"TIME", .Time⟩ = some s.time_index
    ∧ s.item_ids.length ≤ s.items.length
    ∧ (∀ ks ws ns us, r.keywords = some (.Chars ks) → r.wgnames = some (.Chars ws) →
        r.nums = some (.Int ns) → r.units = some (.Chars us) →
        ((zip4 ks ws ns us).map idOf).Nodup →
        s.item_ids.length = s.items.length) := by
  obtain ⟨dimens, startDat, keywords, wgNames, nums, units, ti,
    h1, h2, h3, h4, h5, h6, h7, rfl⟩ := summaryTryFrom_ok dateToTs r s hok
  obtain ⟨hd1, -⟩ := extractInt_ok h1
  rw [hdim] at hd1
  injection hd1 with hd1
  injection hd1 with hd1
  subst hd1
  obtain ⟨hk1, hk2⟩ := extractChars_ok h3
  obtain ⟨hw1, hw2⟩ := extractChars_ok h4
  obtain ⟨hn1, hn2⟩ := extractInt_ok h5
  obtain ⟨hu1, hu2⟩ := extractChars_ok h6
  have hkl := checkLens_ok_single hk2
  have hwl := checkLens_ok_single hw2
  have hnl := checkLens_ok_single hn2
  have hul := checkLens_ok_single hu2
  have hzlen := zip4_length (usizeOfI32 (ds.getD 0 0)) keywords wgNames nums units
    hkl hwl hnl hul
  have hblen := buildItems_items_length (zip4 keywords wgNames nums units) ([], [])
  refine ⟨?_, ?_, ?_, ?_, ?_⟩
  · dsimp only
    rw [hblen, hzlen]
    simp
  · intro it hit
    dsimp only at hit
    rcases buildItems_items_mem _ _ it hit with h | h
    · cases h
    · exact h
  · exact h7
  · dsimp only
    have := buildItems_ids_length_le (zip4 keywords wgNames nums units) ([], [])
    rw [hblen]
    simpa using this
  · intro ks ws ns us hks hws hns hus hnd
    rw [hk1] at hks
    injection hks with hks; injection hks with hks
    rw [hw1] at hws
    injection hws with hws; injection hws with hws
    rw [hn1] at hns
    injection hns with hns; injection hns with hns
    rw [hu1] at hus
    injection hus with hus; injection hus with hus
    subst hks; subst hws; subst hns; subst hus
    dsimp only
    rw [hblen, hzlen]
    have := buildItems_ids_length_nodup (zip4 keywords wgNames nums units) ([], [])
      hnd (by simp)
    rw [this, hzlen]
    simp

/-- The duplicate-slot metadata block: two slots both derive the structural
`ItemId` `{name: TIME, qualifier: Time}`. -/
def dupRecords : SmspecRecords :=
  ⟨some (.Int [2, 10, 10, 5, 0, 0]), some (.Int [1, 3, 2005]),
   some (.Chars ["TIME", "TIME"]), some (.Chars ["", ""]), some (.Int [0, 0]),
   some (.Chars ["DAYS", "DAYS"])⟩

/-- The summary the duplicate block constructs: one `item_ids` key for two
items. -/
def dupSummary : Summary :=
  ⟨[10, 10, 5], [], [(⟨"TIME", .Time⟩, 1)],
   [⟨"DAYS", []⟩, ⟨"DAYS", []⟩], 1, 0⟩

/-- C1 counterexample: the duplicate-slot block is accepted by catalog
construction with `NLIST = 2` and `|items| = 2`, but `|item_ids| = 1`,
refuting `|item_ids| = |items| = NLIST` for blocks in which two distinct
slots derive the same structural `ItemId`. -/
theorem c1_counterexample :
    summaryTryFrom (fun _ => 0) dupRecords = .ok dupSummary
    ∧ dupSummary.item_ids.length = 1 ∧ dupSummary.items.length = 2 := by
  refine ⟨by decide, rfl, rfl⟩

/-- Scenario-A metadata block (`DIMENS` head `NLIST = 2`, a TIME and a
field item). -/
def scenARecords : SmspecRecords :=
  ⟨some (.Int [2, 10, 10, 5, 0, 0]), some (.Int [1, 3, 2005]),
   some (.Chars ["TIME", "FOPR"]), some (.Chars ["", ""]), some (.Int [0, 0]),
   some (.Chars ["DAYS", "SM3/DAY"])⟩

/-- The summary scenario A constructs. -/
def scenASummary : Summary :=
  ⟨[10, 10, 5], [], [(⟨"TIME", .Time⟩, 0), (⟨"FOPR", .Field⟩, 1)],
   [⟨"DAYS", []⟩, ⟨"SM3/DAY", []⟩], 0, 0⟩

/-- Witness for C1 on the scenario-A block. -/
theorem c1_catalog_construction_witness :
    scenASummary.items.length = usizeOfI32 (([2, 10, 10, 5, 0, 0] : List ℤ).getD 0 0)
    ∧ (∀ it ∈ scenASummary.items, it.values = [])
    ∧ hmGet scenASummary.item_ids ⟨"TIME", .Time⟩ = some scenASummary.time_index
    ∧ scenASummary.item_ids.length ≤ scenASummary.items.length
    ∧ (∀ ks ws ns us, scenARecords.keywords = some (.Chars ks) →
        scenARecords.wgnames = some (.Chars ws) →
        scenARecords.nums = some (.Int ns) → scenARecords.units = some (.Chars us) →
        ((zip4 ks ws ns us).map idOf).Nodup →
        scenASummary.item_ids.length = scenASummary.items.length) :=
  c1_catalog_construction (fun _ => 0) scenARecords scenASummary
    [2, 10, 10, 5, 0, 0] rfl (by decide)

/-- A metadata block with no TIME-qualified slot. -/
def noTimeRecords : SmspecRecords :=
  ⟨some (.Int [1, 10, 10, 5, 0, 0]), some (.Int [1, 3, 2005]),
   some (.Chars ["FOPR"]), some (.Chars [""]), some (.Int [0]),
   some (.Chars ["SM3/DAY"])⟩

/-- C5: on a metadata block without a `{TIME, Time}` slot, catalog
construction reaches the `unwrap` of the failed `item_ids` lookup and
panics instead of returning an error — the source's own comment records the
defect ("We will panic if there is no TIME in the data. Make this an error
instead.").  When a TIME item exists, `time_index` is resolved by exactly
that lookup, as the scenario-A evaluation shows. -/
theorem c5_missing_time_panics :
    summaryTryFrom (fun _ => 0) noTimeRecords = .panicked
    ∧ summaryTryFrom (fun _ => 0) scenARecords = .ok scenASummary
    ∧ hmGet scenASummary.item_ids ⟨"TIME", .Time⟩ = some scenASummary.time_index := by
  refine ⟨by decide, by decide, rfl⟩

/-- The documented `Summary` invariant: every item stores one value per
appended row. -/
def Summary.uniform (s : Summary) : Prop :=
  ∀ it ∈ s.items, it.values.length = s.timestamps.length

theorem mem_zipWith_push :
    ∀ (items : List SummaryItem) (ps : List Fp32) (it2 : SummaryItem),
    it2 ∈ List.zipWith (fun it p => { it with values := it.values ++ [p] }) items ps →
    ∃ it ∈ items, it2.values.length = it.values.length + 1 := by
  intro items
  induction items with
  | nil =>
    intro ps it2 h
    simp at h
  | cons hd tl ih =>
    intro ps it2 h
    cases ps with
    | nil => simp at h
    | cons p pt =>
      simp only [List.zipWith_cons_cons] at h
      rcases List.mem_cons.mp h with h | h
      · exact ⟨hd, List.mem_cons_self _ _, by rw [h]; simp⟩
      · obtain ⟨it, hit, he⟩ := ih pt it2 h
        exact ⟨it, List.mem_cons_of_mem _ hit, he⟩

theorem append_step (secsOf : Fp32 → ℤ) (s : Summary) (ps : List Fp32)
    (hlen : ps.length = s.items.length) (hti : s.time_index < s.items.length)
    (hu : s.uniform) :
    ∃ s2, s.append secsOf ps = some s2 ∧ s2.uniform
      ∧ s2.items.length = s.items.length ∧ s2.time_index = s.time_index
      ∧ s2.timestamps.length = s.timestamps.length + 1 := by
  have hti2 : s.time_index < ps.length := by omega
  have hget : ps.get? s.time_index = some (ps.get ⟨s.time_index, hti2⟩) :=
    List.get?_eq_get hti2
  rw [Summary.append, hget]
  have hdrop : s.items.drop ps.length = [] := by
    rw [hlen, List.drop_length]
  refine ⟨_, rfl, ?_, ?_, rfl, ?_⟩
  · intro it2 hit2
    simp only [hdrop, List.append_nil] at hit2
    obtain ⟨it, hit, he⟩ := mem_zipWith_push s.items ps it2 hit2
    simp only [List.length_append, List.length_cons, List.length_nil]
    rw [he, hu it hit]
  · simp only [hdrop, List.append_nil, List.length_zipWith]
    omega
  · simp

theorem foldAppend_ok (secsOf : Fp32 → ℤ) :
    ∀ (pss : List (List Fp32)) (s : Summary),
    s.uniform → s.time_index < s.items.length →
    (∀ ps ∈ pss, ps.length = s.items.length) →
    ∃ s2, pss.foldlM (fun s ps => s.append secsOf ps) s = some s2
      ∧ s2.uniform ∧ s2.items.length = s.items.length
      ∧ s2.timestamps.length = s.timestamps.length + pss.length := by
  intro pss
  induction pss with
  | nil =>
    intro s hu hti _
    exact ⟨s, rfl, hu, rfl, by simp⟩
  | cons ps rest ih =>
    intro s hu hti hlen
    obtain ⟨s1, happ, hu1, hlen1, hti1, hts1⟩ :=
      append_step secsOf s ps (hlen ps (List.mem_cons_self _ _)) hti hu
    obtain ⟨s2, hfold, hu2, hlen2, hts2⟩ := ih s1 hu1 (hti1 ▸ hlen1 ▸ hti)
      (fun p hp => (hlen1.symm ▸ hlen p (List.mem_cons_of_mem _ hp)))
    refine ⟨s2, ?_, hu2, by omega, by rw [hts2, hts1]; simp; omega⟩
    simp only [List.foldlM, happ, Option.bind_some]
    simpa [List.foldlM] using hfold

theorem summaryTryFrom_start (dateToTs : List ℤ → ℤ) (r : SmspecRecords)
    (s : Summary) (hok : summaryTryFrom dateToTs r = .ok s) :
    s.timestamps = [] ∧ s.uniform ∧ s.time_index < s.items.length := by
  obtain ⟨dimens, startDat, keywords, wgNames, nums, units, ti,
    h1, h2, h3, h4, h5, h6, h7, rfl⟩ := summaryTryFrom_ok dateToTs r s hok
  refine ⟨rfl, ?_, ?_⟩
  · intro it hit
    dsimp only at hit ⊢
    rcases buildItems_items_mem _ _ it hit with h | h
    · cases h
    · rw [h]
      rfl
  · dsimp only
    have hmem := hmGet_mem h7
    have := buildItems_ids_lt (zip4 keywords wgNames nums units) ([], [])
      (by intro kv h; cases h) _ hmem
    have hblen := buildItems_items_length (zip4 keywords wgNames nums units) ([], [])
    simp only [List.length_nil] at this hblen
    omega

/-- C2: every summary reachable by catalog construction followed by any
sequence of `append` calls whose parameter vectors have length `|items|`
satisfies the invariant: all `|items[i].values|` coincide and equal
`|timestamps|` (which counts the successful appends). -/
theorem c2_append_invariant (dateToTs : List ℤ → ℤ) (secsOf : Fp32 → ℤ)
    (r : SmspecRecords) (s0 : Summary) (pss : List (List Fp32))
    (hok : summaryTryFrom dateToTs r = .ok s0)
    (hlen : ∀ ps ∈ pss, ps.length = s0.items.length) :
    ∃ s, pss.foldlM (fun s ps => s.append secsOf ps) s0 = some s
      ∧ s.uniform ∧ s.timestamps.length = pss.length := by
  obtain ⟨hts0, hu0, hti0⟩ := summaryTryFrom_start dateToTs r s0 hok
  obtain ⟨s, hfold, hu, hlen2, hts⟩ := foldAppend_ok secsOf pss s0 hu0 hti0 hlen
  exact ⟨s, hfold, hu, by rw [hts, hts0]; simp⟩

/-- Witness for C2: scenario A followed by one append of two values. -/
theorem c2_append_invariant_witness :
    ∃ s, ([[Fp32.mk 0, Fp32.mk 42]] : List (List Fp32)).foldlM
        (fun s ps => s.append (fun _ => 0) ps) scenASummary = some s
      ∧ s.uniform ∧ s.timestamps.length = 1 :=
  c2_append_invariant (fun _ => 0) (fun _ => 0) scenARecords scenASummary
    [[Fp32.mk 0, Fp32.mk 42]] (by decide) (by decide)

/-! ### The time-step appender (`get_next_params` and the `init` read loop) -/

/-- The record stream seen through a `ReadRecord` reader: each successful
`read_record` call yields a byte count and a record; the end of the list is
the end of the stream. -/
abbrev RecordStream := List (Nat × Record)

/-- `get_next_params` (`summary.rs`): scan the next two or three records for
the next time iteration — an optional `SEQHDR`, then `MINISTEP` (a length-1
`Int` record whose value, cast `as usize`, must equal `step`), then `PARAMS`
(`F32` of length `n_items`).  Returns the consumed byte count and the
parameter vector (`none` at end of stream) together with the unread
remainder of the stream. -/
def getNextParams (stream : RecordStream) (step nItems : Nat) :
    Except EclairError (Option (Nat × List Fp32) × RecordStream) :=
  match stream with
  | [] => .ok (none, [])
  | (n0, r0) :: rest0 =>
    let (record, rest, nRead) : Option Record × RecordStream × Nat :=
      if r0.name = "SEQHDR" then
        match rest0 with
        | [] => (none, [], n0)
        | (n1, r1) :: rest1 => (some r1, rest1, n0 + n1)
      else (some r0, rest0, n0)
    match record with
    | none => .error (.MissingRecord "MINISTEP")
    | some mrec =>
      if mrec.name = "MINISTEP" then
        match mrec.data with
        | .Int vs =>
          match checkLens "MINISTEP" vs.length [1] 0 with
          | .error e => .error e
          | .ok _ =>
            let stepIndex := usizeOfI32 (vs.getD 0 0)
            if stepIndex ≠ step then
              .error (.InvalidMinistepValue step stepIndex)
            else
              match rest with
              | [] => .error (.MissingRecord "PARAMS")
              | (n2, prec) :: rest2 =>
                if prec.name = "PARAMS" then
                  match prec.data with
                  | .F32 ps =>
                    match checkLens "PARAMS" ps.length [nItems] 0 with
                    | .error e => .error e
                    | .ok _ => .ok (some (nRead + n2, ps), rest2)
                  | other =>
                    .error (.InvalidRecordDataType "PARAMS" "REAL" other.kindString)
                else .error (.MissingRecord "PARAMS")
        | other => .error (.InvalidRecordDataType "MINISTEP" "INTE" other.kindString)
      else .error (.MissingRecord "MINISTEP")

/-- The state of the `SummaryFileReader::init` read loop: the summary under
construction, the `n_steps` counter, the remembered byte offset, the file
size observed at open, and the unread record stream. -/
structure InitState where
  summary : Summary
  nSteps : Nat
  pos : Nat
  size : Nat
  stream : RecordStream
deriving DecidableEq, Repr

/-- One iteration of the read loop in `SummaryFileReader::init`
(`summary.rs`): ask `get_next_params` for a triplet; on an error seek back
to the remembered offset and stop, the summary untouched; at end of stream
stop; otherwise append the row, advance offset and counter, and continue
unless the file size observed at open has been reached.  The returned flag
tells whether the loop continues. -/
def initStep (secsOf : Fp32 → ℤ) (st : InitState) : Outcome (Bool × InitState) :=
  match getNextParams st.stream st.nSteps st.summary.items.length with
  | .error _ => .ok (false, st)
  | .ok (none, rest) => .ok (false, { st with stream := rest })
  | .ok (some (nBytes, params), rest) =>
    match st.summary.append secsOf params with
    | none => .panicked
    | some s2 =>
      .ok (decide (st.pos + nBytes < st.size),
        { summary := s2, nSteps := st.nSteps + 1, pos := st.pos + nBytes,
          size := st.size, stream := rest })

/-- C3: a data-step triplet whose unwrapped `MINISTEP` value (cast
`as usize`) differs from the current number of stored rows — the loop
counter `n_steps`, equal to `|timestamps|` — is rejected by
`get_next_params` with `InvalidMinistepValue{expected: rows, found: value}`,
and the read-loop step leaves the `Summary` completely unchanged: no
timestamp and no item value is appended. -/
theorem c3_ministep_mismatch (secsOf : Fp32 → ℤ) (st : InitState)
    (pre : RecordStream) (nb : Nat) (v : ℤ) (tail : RecordStream)
    (hshape : st.stream = pre ++ (nb, ⟨"MINISTEP", .Int [v]⟩) :: tail)
    (hpre : pre = [] ∨ ∃ nb2 d, pre = [(nb2, ⟨"SEQHDR", d⟩)])
    (hsteps : st.nSteps = st.summary.timestamps.length)
    (hne : usizeOfI32 v ≠ st.summary.timestamps.length) :
    getNextParams st.stream st.nSteps st.summary.items.length
      = .error (.InvalidMinistepValue st.summary.timestamps.length (usizeOfI32 v))
    ∧ initStep secsOf st = .ok (false, st) := by
  have hne2 : usizeOfI32 (([v] : List ℤ).getD 0 0) ≠ st.nSteps := by
    rw [hsteps]
    simpa using hne
  have hmain : getNextParams st.stream st.nSteps st.summary.items.length
      = .error (.InvalidMinistepValue st.summary.timestamps.length (usizeOfI32 v)) := by
    rcases hpre with rfl | ⟨nb2, d, rfl⟩
    · rw [hshape]
      simp only [List.nil_append]
      rw [getNextParams.eq_def]
      dsimp only
      rw [if_neg (by decide : ¬ ("MINISTEP" : String) = "SEQHDR")]
      dsimp only
      rw [if_pos (rfl : ("MINISTEP" : String) = "MINISTEP")]
      have hck : checkLens "MINISTEP" ([v] : List ℤ).length [1] 0 = .ok () := by
        rw [checkLens]
        norm_num
      rw [hck]
      rw [if_pos hne2, hsteps]
      simp
    · rw [hshape]
      simp only [List.cons_append, List.nil_append]
      rw [getNextParams.eq_def]
      dsimp only
      rw [if_pos (rfl : ("SEQHDR" : String) = "SEQHDR")]
      dsimp only
      rw [if_pos (rfl : ("MINISTEP" : String) = "MINISTEP")]
      have hck : checkLens "MINISTEP" ([v] : List ℤ).length [1] 0 = .ok () := by
        rw [checkLens]
        norm_num
      rw [hck]
      rw [if_pos hne2, hsteps]
      simp
  refine ⟨hmain, ?_⟩
  rw [initStep, hmain]

/-- A stream holding one triplet whose `MINISTEP` is 1 while no row is
stored yet. -/
def badStepStream : RecordStream :=
  [(16, ⟨"SEQHDR", .Int [1]⟩), (16, ⟨"MINISTEP", .Int [1]⟩),
   (24, ⟨"PARAMS", .F32 [⟨0⟩, ⟨1⟩]⟩)]

/-- Witness for C3: scenario-A summary with zero rows fed a `MINISTEP` of
1. -/
theorem c3_ministep_mismatch_witness :
    getNextParams badStepStream 0 2
      = .error (.InvalidMinistepValue scenASummary.timestamps.length (usizeOfI32 1))
    ∧ initStep (fun _ => 0) ⟨scenASummary, 0, 0, 100, badStepStream⟩
        = .ok (false, ⟨scenASummary, 0, 0, 100, badStepStream⟩) :=
  c3_ministep_mismatch (fun _ => 0) ⟨scenASummary, 0, 0, 100, badStepStream⟩
    [(16, ⟨"SEQHDR", .Int [1]⟩)] 16 1
    [(24, ⟨"PARAMS", .F32 [⟨0⟩, ⟨1⟩]⟩)] rfl
    (Or.inr ⟨16, .Int [1], rfl⟩) rfl (by decide)

/-! ### The cross-region encoding -/

theorem tdiv_nonneg_eq_ediv (a b : ℤ) (ha : 0 ≤ a) (hb : 0 ≤ b) :
    a.tdiv b = a / b := by
  obtain ⟨m, rfl⟩ := Int.eq_ofNat_of_zero_le ha
  obtain ⟨n, rfl⟩ := Int.eq_ofNat_of_zero_le hb
  rfl

theorem isCrossRegionName_RxF (c : Char) (cs : List Char) :
    isCrossRegionName ('R' :: c :: 'F' :: cs) = true := by
  rw [isCrossRegionName.eq_def]
  split
  · rfl
  · rfl
  · next h1 h2 => exact absurd rfl (h2 c cs)

theorem isCrossRegionName_RNLF (cs : List Char) :
    isCrossRegionName ('R' :: 'N' :: 'L' :: 'F' :: cs) = true := rfl

theorem not_contains_of_head {name : String} {c : Char} {l : List Char}
    (h : name.toList = c :: l) :
    ∀ kws : List String, (∀ s ∈ kws, s.toList.head? ≠ some c) →
    kws.contains name = false := by
  intro kws
  induction kws with
  | nil => intro _; rfl
  | cons k ks ih =>
    intro hall
    have hne : (name == k) = false := by
      rw [beq_eq_false_iff_ne]
      intro he
      subst he
      exact hall name (List.mem_cons_self _ _) (by rw [h]; rfl)
    have hrest := ih fun s hs => hall s (List.mem_cons_of_mem _ hs)
    simp only [beq_eq_false_iff_ne] at hne
    simp at hrest ⊢
    exact ⟨hne, hrest⟩

/-- C4 (amended): for `0 ≤ from < 32768`, `to ≥ -10`, a positive encoded
index (`NUMS` values must be positive to classify) representable as an i32,
classifying a cross-region mnemonic (`RNLF…` or `R?F…`) whose `NUMS` index
is `from + 32768*(to+10)` yields exactly `CrossRegionFlow{from, to}`; the
bound `from < 32768` cannot be dropped, see `c4_counterexample`. -/
theorem c4_cross_region_roundtrip (name wg : String) (f t : ℤ)
    (hpat : (∃ cs, name.toList = 'R' :: 'N' :: 'L' :: 'F' :: cs)
          ∨ (∃ c cs, name.toList = 'R' :: c :: 'F' :: cs))
    (hf0 : 0 ≤ f) (hf : f < 32768) (ht : -10 ≤ t)
    (hpos : 0 < f + 32768 * (t + 10))
    (hrange : f + 32768 * (t + 10) < 2 ^ 31) :
    ItemId.new name wg (f + 32768 * (t + 10)) = ⟨name, .CrossRegionFlow f t⟩ := by
  obtain ⟨l, hl⟩ : ∃ l, name.toList = 'R' :: l := by
    rcases hpat with ⟨cs, hc⟩ | ⟨c, cs, hc⟩
    · exact ⟨_, hc⟩
    · exact ⟨_, hc⟩
  have hT : TIMING_KEYWORDS.contains name = false :=
    not_contains_of_head hl TIMING_KEYWORDS (by decide)
  have hP : PERFORMANCE_KEYWORDS.contains name = false :=
    not_contains_of_head hl PERFORMANCE_KEYWORDS (by decide)
  have hhead : name.toList.head? = some 'R' := by rw [hl]; rfl
  have hcross : isCrossRegionName name.toList = true := by
    rcases hpat with ⟨cs, hc⟩ | ⟨c, cs, hc⟩
    · rw [hc]; exact isCrossRegionName_RNLF cs
    · rw [hc]; exact isCrossRegionName_RxF c cs
  have hdiv : (f + 32768 * (t + 10)).tdiv 32768 = t + 10 := by
    rw [tdiv_nonneg_eq_ediv _ _ (le_of_lt hpos) (by norm_num)]
    rw [Int.add_mul_ediv_left f (t + 10) (by norm_num : (32768 : ℤ) ≠ 0)]
    rw [Int.ediv_eq_zero_of_lt hf0 hf]
    ring
  have hTm : name ∉ TIMING_KEYWORDS := by simpa using hT
  have hPm : name ∉ PERFORMANCE_KEYWORDS := by simpa using hP
  have hhead2 : name.data.head? = some 'R' := hhead
  have hcross2 : isCrossRegionName name.data = true := hcross
  unfold ItemId.new
  simp [hTm, hPm, hhead2, hcross2, decide_eq_true hpos, hdiv]

/-- C4 counterexample: at `(from, to) = (32768, 0)` the forward map gives
index `32768 + 32768*(0+10) = 360448`, but the decoder yields
`CrossRegionFlow{from: 0, to: 1}`, not `{from: 32768, to: 0}`. -/
theorem c4_counterexample :
    (32768 : ℤ) + 32768 * (0 + 10) = 360448
    ∧ ItemId.new "R_F" "" 360448 = ⟨"R_F", .CrossRegionFlow 0 1⟩
    ∧ ItemQualifier.CrossRegionFlow 0 1 ≠ ItemQualifier.CrossRegionFlow 32768 0 := by
  refine ⟨by norm_num, by decide, by decide⟩

/-- Witness for C4 at `(from, to) = (11, 30)`, encoded index `1310731`. -/
theorem c4_cross_region_roundtrip_witness :
    ItemId.new "R_F" "" (11 + 32768 * (30 + 10)) = ⟨"R_F", .CrossRegionFlow 11 30⟩ :=
  c4_cross_region_roundtrip "R_F" "" 11 30 (Or.inr ⟨'_', [], rfl⟩)
    (by norm_num) (by norm_num) (by norm_num) (by norm_num) (by norm_num)

/-! ### `summary_manager.rs` -/

/-- An entry of the manager (`UpdatableSummary`): the channel endpoints and
join handle are reduced to whether the updater worker has already returned
— `workerGone` means the worker function finished (for example after an I/O
error in `update`), dropping its receiver endpoint of the termination
channel. -/
structure UpdatableSummary where
  name : String
  data : Summary
  workerGone : Bool
deriving DecidableEq, Repr

/-- `SummaryManager` (`summary_manager.rs`). -/
structure SummaryManager where
  summaries : List UpdatableSummary
deriving DecidableEq, Repr

/-- `HashSet` insertion while collecting ids (first occurrence kept). -/
def idsInsert (acc : List ItemId) (k : ItemId) : List ItemId :=
  if k ∈ acc then acc else acc ++ [k]

/-- `SummaryManager::all_item_ids` (`summary_manager.rs`): extend one set
with the keys of every summary's `item_ids`.  The source applies no
recognition filter here (`is_recognized` is used by the FFI layer only). -/
def SummaryManager.allItemIds (m : SummaryManager) : List ItemId :=
  m.summaries.foldl
    (fun acc s => s.data.item_ids.foldl (fun acc kv => idsInsert acc kv.1) acc) []

theorem idsInsert_mem (acc : List ItemId) (k k2 : ItemId) :
    k2 ∈ idsInsert acc k ↔ k2 ∈ acc ∨ k2 = k := by
  unfold idsInsert
  by_cases h : k ∈ acc
  · rw [if_pos h]
    constructor
    · exact Or.inl
    · rintro (h2 | rfl)
      · exact h2
      · exact h
  · rw [if_neg h]
    simp

theorem foldl_idsInsert_mem (l : List (ItemId × Nat)) :
    ∀ (acc : List ItemId) (k : ItemId),
    k ∈ l.foldl (fun acc kv => idsInsert acc kv.1) acc ↔
      k ∈ acc ∨ ∃ v, (k, v) ∈ l := by
  induction l with
  | nil => intro acc k; simp
  | cons kv rest ih =>
    intro acc k
    obtain ⟨k1, v1⟩ := kv
    rw [List.foldl_cons, ih, idsInsert_mem]
    constructor
    · rintro ((h | rfl) | ⟨v, hv⟩)
      · exact Or.inl h
      · exact Or.inr ⟨v1, List.mem_cons_self _ _⟩
      · exact Or.inr ⟨v, List.mem_cons_of_mem _ hv⟩
    · rintro (h | ⟨v, hv⟩)
      · exact Or.inl (Or.inl h)
      · rcases List.mem_cons.mp hv with he | hv2
        · injection he with he1 he2
          subst he1
          exact Or.inl (Or.inr rfl)
        · exact Or.inr ⟨v, hv2⟩

theorem foldl_summaries_mem (sums : List UpdatableSummary) :
    ∀ (acc : List ItemId) (k : ItemId),
    k ∈ sums.foldl
        (fun acc s => s.data.item_ids.foldl (fun acc kv => idsInsert acc kv.1) acc) acc ↔
      k ∈ acc ∨ ∃ s ∈ sums, ∃ v, (k, v) ∈ s.data.item_ids := by
  induction sums with
  | nil => intro acc k; simp
  | cons s0 rest ih =>
    intro acc k
    rw [List.foldl_cons, ih, foldl_idsInsert_mem]
    constructor
    · rintro ((h | ⟨v, hv⟩) | ⟨s, hs, v, hv⟩)
      · exact Or.inl h
      · exact Or.inr ⟨s0, List.mem_cons_self _ _, v, hv⟩
      · exact Or.inr ⟨s, List.mem_cons_of_mem _ hs, v, hv⟩
    · rintro (h | ⟨s, hs, v, hv⟩)
      · exact Or.inl (Or.inl h)
      · rcases List.mem_cons.mp hs with rfl | hs2
        · exact Or.inl (Or.inr ⟨v, hv⟩)
        · exact Or.inr ⟨s, hs2, v, hv⟩

/-- C7 (amended): `SummaryManager::all_item_ids` returns the union over all
managed summaries of all `ItemId` keys, with no recognition filter:
`Unrecognized` ids are included (the `is_recognized` filter is applied only
by the FFI layer, not here). -/
theorem c7_all_item_ids (m : SummaryManager) (k : ItemId) :
    k ∈ m.allItemIds ↔ ∃ s ∈ m.summaries, ∃ v, (k, v) ∈ s.data.item_ids := by
  unfold SummaryManager.allItemIds
  rw [foldl_summaries_mem]
  simp

/-- A summary holding a single unrecognized item. -/
def unrecSummary : Summary :=
  ⟨[1, 1, 1], [], [(⟨"XXXYZ", .Unrecognized "" 0⟩, 0)], [⟨"", []⟩], 0, 0⟩

/-- C7 counterexample: a manager whose only summary holds an `Unrecognized`
id still reports that id from `all_item_ids`, refuting the claimed
exclusion of unrecognized ids. -/
theorem c7_counterexample :
    (⟨"XXXYZ", .Unrecognized "" 0⟩ : ItemId) ∈
      (SummaryManager.mk [⟨"a", unrecSummary, false⟩]).allItemIds
    ∧ (ItemQualifier.Unrecognized "" 0).is_recognized = false := by
  refine ⟨by decide, rfl⟩

/-- Witness for C7 on the one-entry manager. -/
theorem c7_all_item_ids_witness :
    (⟨"XXXYZ", .Unrecognized "" 0⟩ : ItemId) ∈
      (SummaryManager.mk [⟨"a", unrecSummary, false⟩]).allItemIds ↔
    ∃ s ∈ (SummaryManager.mk [⟨"a", unrecSummary, false⟩]).summaries,
      ∃ v, ((⟨"XXXYZ", .Unrecognized "" 0⟩ : ItemId), v) ∈ s.data.item_ids :=
  c7_all_item_ids (SummaryManager.mk [⟨"a", unrecSummary, false⟩])
    ⟨"XXXYZ", .Unrecognized "" 0⟩

/-- `SummaryManager::remove` (`summary_manager.rs`): index into
`self.summaries` (a panic when out of bounds), `send(true)` on the
termination channel and `.expect` the result — `send` returns `Err` exactly
when the receiver endpoint is gone, i.e. when the worker already returned,
and the `.expect` then panics — then drop the entry and join the thread
(the join itself succeeds for a worker that returned normally, which
`update`'s error handling ensures). -/
def SummaryManager.remove (m : SummaryManager) (index : Nat) :
    Outcome SummaryManager :=
  match m.summaries.get? index with
  | none => .panicked
  | some entry =>
    if entry.workerGone then .panicked
    else .ok ⟨m.summaries.eraseIdx index⟩

/-- A manager whose single entry's worker has already exited on its own,
dropping the termination receiver. -/
def deadWorkerManager : SummaryManager :=
  ⟨[⟨"S", scenASummary, true⟩]⟩

/-- C9: `remove(0)` on a valid index panics when the worker has already
exited — `term_snd.send(true)` returns `Err` because the receiver was
dropped with the worker, and the source `.expect`s that result.  A live
worker is removed successfully, as the second evaluation shows, so it is
exactly the already-gone worker case that contradicts the claim. -/
theorem c9_remove_dead_worker_panics :
    0 < deadWorkerManager.summaries.length
    ∧ deadWorkerManager.remove 0 = .panicked
    ∧ (SummaryManager.mk [⟨"S", scenASummary, false⟩]).remove 0
        = .ok (SummaryManager.mk []) := by
  refine ⟨by decide, rfl, rfl⟩

/-! ### `SummaryFileReader::from_path` -/

/-- The relevant shape of a filesystem path: its file stem and extension
(`Path::file_stem` / `Path::extension`).  A stem that is not valid UTF-8 is
outside the ASCII embedding and not modelled. -/
structure FPath where
  stem : Option String
  ext : Option String
deriving DecidableEq, Repr

/-- `Path::with_extension`. -/
def FPath.withExt (p : FPath) (e : String) : FPath := ⟨p.stem, some e⟩

/-- `Path::to_string_lossy`, for the `InvalidFilePath` payload. -/
def FPath.display (p : FPath) : String :=
  p.stem.getD "" ++ (match p.ext with | some e => "." ++ e | none => "")

/-- `File::open` against a filesystem modelled as the list of existing
paths: a missing file is an `io::Error` of kind `NotFound`, which `?`
converts through the `#[from] std::io::Error` of `ReadError`
(`new_code/src/error.rs`). -/
def fileOpen (fs : List FPath) (p : FPath) : Except EclairError Unit :=
  if p ∈ fs then .ok () else .error (.ReadError .notFound)

/-- `SummaryFileReader::from_path` (`summary.rs`): reject a path without a
file stem with `InvalidFilePath`; reject an extension other than
`SMSPEC`/`UNSMRY` (no extension is allowed) with `InvalidFilePath`; then
open both derived companion files. -/
def fromPath (fs : List FPath) (p : FPath) : Except EclairError Unit :=
  if p.stem = none then .error (.InvalidFilePath p.display)
  else
    let extBad :=
      match p.ext with
      | some e => e != "SMSPEC" && e != "UNSMRY"
      | none => false
    if extBad then .error (.InvalidFilePath p.display)
    else do
      let _ ← fileOpen fs (p.withExt "SMSPEC")
      let _ ← fileOpen fs (p.withExt "UNSMRY")
      pure ()

/-- Whether a result is the `InvalidFilePath` error. -/
def isInvalidFilePath : Except EclairError Unit → Bool
  | .error (.InvalidFilePath _) => true
  | _ => false

/-- C8 counterexample: with neither companion file on disk, opening the
well-formed base path `CASE.SMSPEC` fails with `ReadError` (the propagated
`NotFound` io error), not with `InvalidFilePath`. -/
theorem c8_counterexample :
    fromPath [] ⟨some "CASE", some "SMSPEC"⟩ = .error (.ReadError .notFound)
    ∧ isInvalidFilePath (fromPath [] ⟨some "CASE", some "SMSPEC"⟩) = false := by
  refine ⟨rfl, rfl⟩

/-- C8 (amended): `from_path` fails with `InvalidFilePath` for every base
path without a file stem or with an extension other than
`SMSPEC`/`UNSMRY`; when a derived companion file does not exist it fails
with `ReadError` (the io error), not `InvalidFilePath`. -/
theorem c8_from_path (fs : List FPath) (p : FPath) (e st : String) :
    (p.stem = none → fromPath fs p = .error (.InvalidFilePath p.display))
    ∧ (p.stem = some st → p.ext = some e → e ≠ "SMSPEC" → e ≠ "UNSMRY" →
        fromPath fs p = .error (.InvalidFilePath p.display))
    ∧ (p.stem = some st →
        (p.ext = none ∨ p.ext = some "SMSPEC" ∨ p.ext = some "UNSMRY") →
        p.withExt "SMSPEC" ∉ fs →
        fromPath fs p = .error (.ReadError .notFound))
    ∧ (p.stem = some st →
        (p.ext = none ∨ p.ext = some "SMSPEC" ∨ p.ext = some "UNSMRY") →
        p.withExt "SMSPEC" ∈ fs → p.withExt "UNSMRY" ∉ fs →
        fromPath fs p = .error (.ReadError .notFound)) := by
  refine ⟨?_, ?_, ?_, ?_⟩
  · intro h
    rw [fromPath, if_pos h]
  · intro hst hext h1 h2
    rw [fromPath, if_neg (by rw [hst]; simp)]
    have hbad : (match p.ext with
        | some e => e != "SMSPEC" && e != "UNSMRY"
        | none => false) = true := by
      rw [hext]
      simp [h1, h2]
    rw [if_pos hbad]
  · intro hst hext hmiss
    rw [fromPath, if_neg (by rw [hst]; simp)]
    have hgood : (match p.ext with
        | some e => e != "SMSPEC" && e != "UNSMRY"
        | none => false) = false := by
      rcases hext with h | h | h <;> rw [h] <;> simp
    rw [hgood]
    simp only [Bool.false_eq_true, if_false]
    rw [fileOpen, if_neg hmiss]
    rfl
  · intro hst hext hhit hmiss
    rw [fromPath, if_neg (by rw [hst]; simp)]
    have hgood : (match p.ext with
        | some e => e != "SMSPEC" && e != "UNSMRY"
        | none => false) = false := by
      rcases hext with h | h | h <;> rw [h] <;> simp
    rw [hgood]
    simp only [Bool.false_eq_true, if_false]
    rw [fileOpen, if_pos hhit]
    simp only [bind, Except.bind]
    rw [fileOpen, if_neg hmiss]

/-- Witness for C8: the four failure cases on concrete paths. -/
theorem c8_from_path_witness :
    fromPath [] ⟨none, none⟩ = .error (.InvalidFilePath (FPath.display ⟨none, none⟩))
    ∧ fromPath [] ⟨some "CASE", some "TXT"⟩
        = .error (.InvalidFilePath (FPath.display ⟨some "CASE", some "TXT"⟩))
    ∧ fromPath [] ⟨some "CASE", none⟩ = .error (.ReadError .notFound)
    ∧ fromPath [⟨some "CASE", some "SMSPEC"⟩] ⟨some "CASE", none⟩
        = .error (.ReadError .notFound) :=
  ⟨(c8_from_path [] ⟨none, none⟩ "" "").1 rfl,
   (c8_from_path [] ⟨some "CASE", some "TXT"⟩ "TXT" "CASE").2.1 rfl rfl
     (by decide) (by decide),
   (c8_from_path [] ⟨some "CASE", none⟩ "" "CASE").2.2.1 rfl (Or.inl rfl) (by decide),
   (c8_from_path [⟨some "CASE", some "SMSPEC"⟩] ⟨some "CASE", none⟩ "" "CASE").2.2.2
     rfl (Or.inl rfl) (by decide) (by decide)⟩

/-- Witness for C6 at `L = 2`, payload `[7, 9]`, a following byte `[5]` and
the mismatching tail `[0,0,0,3]`. -/
theorem c6_take_block_framing_witness :
    (encI32 2 ++ [7, 9] ++ encI32 2 ++ [5]).length = (2 + 8) + 1
    ∧ takeBlock (encI32 2 ++ [7, 9] ++ encI32 2 ++ [5]) = .ok ([7, 9], [5])
    ∧ (([0, 0, 0, 3] : List Nat).length = 4 → readI32 [0, 0, 0, 3] ≠ 2 →
        takeBlock (encI32 2 ++ [7, 9] ++ [0, 0, 0, 3] ++ [5]) =
          .error (.HeadTailMismatch 2 (readI32 [0, 0, 0, 3]))) :=
  c6_take_block_framing 2 [7, 9] [5] [0, 0, 0, 3] (by decide) (by decide) (by decide)

end Eclair
